import Mathlib

/-
Verification of the agent-status monitor of TestOverflow/SlackBot
(src/SlackBot.py, class ZendeskMonitor and the acknowledgment handler).

Shallow embedding conventions:
- timestamps and durations are integers (seconds); `datetime.now()` becomes
  the `now` parameter of a cycle, `(a - b).total_seconds()` becomes `a - b`;
- `self.agent_status_times : Dict[int, datetime]` becomes an association
  list `List (Int × Int)` with dict-style lookup / assignment / pop;
- `self.alerted_agents : Set[int]` becomes a `List Int` used as a set;
- a Python record (JSON dict) with possibly missing keys becomes a
  structure of `Option` fields; reading a missing key is a `KeyError`,
  modelled with `Except String`;
- `get_agent_availability` returns `{}` on a request error or when the
  `availability` key is absent; the truthiness test `if availability:`
  distinguishes an empty dict from a populated one.  We model the result
  as `Avail`: `.empty` for the falsy dict, `.state s` for a populated dict
  whose `.get('agent_state')` is `s : Option String`;
- `get_agents` returns `[]` on a request failure, and `monitor_agents`
  guards the whole update with `if agents:`, so a failed (or empty) fetch
  reaches the cycle as the empty list.
-/

namespace SlackBot

/-- One record of the users list returned by the provider
(`response.json().get('users', [])` in `get_agents`).  A field is `none`
when the corresponding key is missing from the JSON dict. -/
structure AgentRecord where
  id : Option Int
  name : Option String
deriving DecidableEq, Repr

/-- Result of `get_agent_availability(agent_id)`: `.empty` models the empty
dict (request error, or missing `availability` key); `.state s` models a
populated dict with `availability.get('agent_state') = s`. -/
inductive Avail where
  | empty : Avail
  | state (agent_state : Option String) : Avail
deriving DecidableEq, Repr

/-- `self.check_interval = 60` (seconds) from `ZendeskMonitor.__init__`. -/
def check_interval : Int := 60

/-- `self.alert_threshold = 600` (seconds) from `ZendeskMonitor.__init__`. -/
def alert_threshold : Int := 600

/-- Dict lookup: `d[k]` / `k in d` for `agent_status_times`. -/
def lookupKV (l : List (Int × Int)) (k : Int) : Option Int :=
  match l with
  | [] => none
  | (k', v) :: rest => if k' = k then some v else lookupKV rest k

/-- Dict assignment `d[k] = v` (replaces an existing binding, else appends). -/
def insertKV (l : List (Int × Int)) (k v : Int) : List (Int × Int) :=
  match l with
  | [] => [(k, v)]
  | (k', v') :: rest => if k' = k then (k, v) :: rest else (k', v') :: insertKV rest k v

/-- Dict removal `d.pop(k, None)`. -/
def eraseKey (l : List (Int × Int)) (k : Int) : List (Int × Int) :=
  match l with
  | [] => []
  | (k', v') :: rest => if k' = k then eraseKey rest k else (k', v') :: eraseKey rest k

/-- Set removal `s.discard(x)`. -/
def removeSet (l : List Int) (x : Int) : List Int :=
  match l with
  | [] => []
  | y :: rest => if y = x then removeSet rest x else y :: removeSet rest x

/-- Set insertion `s.add(x)`. -/
def addSet (l : List Int) (x : Int) : List Int :=
  if x ∈ l then l else l ++ [x]

/-- State of one monitoring cycle while the `for agent in agents` loop runs:
the two persistent structures of `ZendeskMonitor` plus the per-cycle
`transfers_only_agents` list (the spec's `active` report) and the list of
alerts sent with `send_slack_alert` this cycle (the spec's `to_alert`). -/
structure CycleState where
  agent_status_times : List (Int × Int)
  alerted_agents : List Int
  transfers_only_agents : List (String × Int)
  alerts_sent : List (String × Int)
deriving DecidableEq, Repr

/-- The watched-status branch of the loop body (src lines 321-333): with
`times1`, `alerted1`, `started` already holding the values of
`agent_status_times`, `alerted_agents` and `agent_status_times[agent_id]`
after the `if agent_id not in self.agent_status_times` block, compute the
duration, append to `transfers_only_agents`, and send / record the alert
when `duration >= alert_threshold and agent_id not in alerted_agents`. -/
def trackWatched (threshold now agent_id : Int) (agent_name : String)
    (cs : CycleState) (times1 : List (Int × Int)) (alerted1 : List Int)
    (started : Int) : CycleState :=
  if now - started ≥ threshold ∧ agent_id ∉ alerted1 then
    ⟨times1, addSet alerted1 agent_id,
     cs.transfers_only_agents ++ [(agent_name, now - started)],
     cs.alerts_sent ++ [(agent_name, now - started)]⟩
  else
    ⟨times1, alerted1,
     cs.transfers_only_agents ++ [(agent_name, now - started)],
     cs.alerts_sent⟩

/-- One iteration of `for agent in agents` in `monitor_agents`
(src lines 309-338).  `agent['id']` and `agent['name']` raise `KeyError`
when the key is missing (there is no try/except around the loop), excluded
ids `continue`, an empty availability dict skips the agent, the
`transfers_only` state tracks/alerts, and any other state (including a
missing `agent_state` key) pops the episode and discards the ledger entry. -/
def processAgent (excluded_agents : List Int) (threshold : Int)
    (avail : Int → Avail) (now : Int) (cs : CycleState) (rec : AgentRecord) :
    Except String CycleState :=
  match rec.id with
  | none => .error "KeyError: id"
  | some agent_id =>
    if agent_id ∈ excluded_agents then .ok cs
    else
      match rec.name with
      | none => .error "KeyError: name"
      | some agent_name =>
        match avail agent_id with
        | .empty => .ok cs
        | .state agent_state =>
          if agent_state = some "transfers_only" then
            match lookupKV cs.agent_status_times agent_id with
            | none =>
              .ok (trackWatched threshold now agent_id agent_name cs
                (insertKV cs.agent_status_times agent_id now)
                (removeSet cs.alerted_agents agent_id) now)
            | some started =>
              .ok (trackWatched threshold now agent_id agent_name cs
                cs.agent_status_times cs.alerted_agents started)
          else
            .ok ⟨eraseKey cs.agent_status_times agent_id,
                 removeSet cs.alerted_agents agent_id,
                 cs.transfers_only_agents, cs.alerts_sent⟩

/-- The whole `for agent in agents` loop, threading the cycle state and
propagating any uncaught `KeyError`. -/
def processAgents (excluded_agents : List Int) (threshold : Int)
    (avail : Int → Avail) (now : Int) :
    List AgentRecord → CycleState → Except String CycleState
  | [], cs => .ok cs
  | rec :: rest, cs =>
    match processAgent excluded_agents threshold avail now cs rec with
    | .error e => .error e
    | .ok cs' => processAgents excluded_agents threshold avail now rest cs'

/-- Stable insertion into a list kept in descending duration order. -/
def insertDesc (x : String × Int) : List (String × Int) → List (String × Int)
  | [] => [x]
  | y :: rest => if y.2 ≤ x.2 then x :: y :: rest else y :: insertDesc x rest

/-- `transfers_only_agents.sort(key=lambda x: x[1], reverse=True)`
(src line 340): sort by duration, descending. -/
def sortActive : List (String × Int) → List (String × Int)
  | [] => []
  | x :: rest => insertDesc x (sortActive rest)

/-- One full iteration of the `while True` loop of `monitor_agents`
(src lines 303-344, minus the sleep): given the persistent state
(`agent_status_times`, `alerted_agents`) and this cycle's inputs (`now`,
the availability responses, and the fetched `agents` list), run the update.
A failed fetch reaches this function as `agents = []`, and `if agents:`
then skips the whole update.  On success the returned `CycleState` carries
the new persistent state and the cycle's report (sorted active list and
the alerts sent). -/
def monitorCycle (excluded_agents : List Int) (threshold : Int)
    (avail : Int → Avail) (now : Int) (times : List (Int × Int))
    (alerted : List Int) (agents : List AgentRecord) :
    Except String CycleState :=
  if agents.isEmpty then .ok ⟨times, alerted, [], []⟩
  else
    match processAgents excluded_agents threshold avail now agents
        ⟨times, alerted, [], []⟩ with
    | .error e => .error e
    | .ok cs =>
      .ok { cs with transfers_only_agents := sortActive cs.transfers_only_agents }

/-- Inputs of one polling cycle: the wall-clock time at the top of the loop,
the availability responses, and the fetched agent list. -/
structure Cycle where
  now : Int
  avail : Int → Avail
  agents : List AgentRecord

/-- A run of consecutive polling cycles, returning the trace of per-cycle
states (or the first uncaught exception, which in the source kills the
monitoring thread). -/
def runTrace (excluded_agents : List Int) (threshold : Int) :
    List Cycle → List (Int × Int) → List Int → Except String (List CycleState)
  | [], _, _ => .ok []
  | c :: rest, times, alerted =>
    match monitorCycle excluded_agents threshold c.avail c.now times alerted c.agents with
    | .error e => .error e
    | .ok cs =>
      match runTrace excluded_agents threshold rest cs.agent_status_times cs.alerted_agents with
      | .error e => .error e
      | .ok trace => .ok (cs :: trace)

/-- A Slack Web API call issued by a handler. -/
inductive SlackCall where
  | chat_postMessage (channel thread_ts text : String) : SlackCall
  | chat_update (channel ts text : String) : SlackCall
deriving DecidableEq, Repr

/-- The `acknowledge_alert` action handler (src lines 488-516).  Its body
only calls `ack()`, posts a thread reply, and edits the original alert
message; it never references `zendesk_monitor`, so the monitor's
`agent_status_times` map and `alerted_agents` ledger are returned
unchanged.  The whole body is wrapped in try/except, so it never raises. -/
def handle_acknowledgment (agent_name user channel message_ts : String)
    (times : List (Int × Int)) (alerted : List Int) :
    (List (Int × Int) × List Int) × List SlackCall :=
  ((times, alerted),
   [SlackCall.chat_postMessage channel message_ts
      ("Alert acknowledged by <@" ++ user ++ ">"),
    SlackCall.chat_update channel message_ts
      ("Alert: Agent " ++ agent_name ++
       " has been in Transfers Only status for 10 minutes.")])

/-- A cycle's snapshot keeps agent `a` continuously watched: every record
with `a`'s id is the well-formed watched record `⟨a, nm⟩`, that record is
present, `a` is not excluded, and `a`'s availability reports the watched
status. -/
def watchedCycleFor (excl : List Int) (a : Int) (nm : String) (c : Cycle) : Prop :=
  a ∉ excl ∧ c.avail a = Avail.state (some "transfers_only") ∧
  (⟨some a, some nm⟩ : AgentRecord) ∈ c.agents ∧
  ∀ rec ∈ c.agents, rec.id = some a → rec = ⟨some a, some nm⟩

/- Concrete scenarios. -/

/-- All availability lookups report the watched `transfers_only` state. -/
def availWatched : Int → Avail := fun _ => Avail.state (some "transfers_only")

/-- All availability lookups report a non-watched `online` state. -/
def availOnline : Int → Avail := fun _ => Avail.state (some "online")

/-- Agent A: id 1, display name "A". -/
def agentARecord : AgentRecord := ⟨some 1, some "A"⟩

/-- C5 scenario: agent A enters the watched status at t = 0 and never leaves
it; the monitor polls every 60 seconds through t = 600, then again at
t = 660. -/
def scenarioC5 : List Cycle :=
  ([0, 60, 120, 180, 240, 300, 360, 420, 480, 540, 600, 660] : List Int).map
    (fun t => Cycle.mk t availWatched [agentARecord])

/-- C7 scenario: agent A watched from t = 0, alerted at t = 600, observed in
another status at t = 650, watched again from t = 700, still watched at
t = 1300. -/
def scenarioC7 : List Cycle :=
  [Cycle.mk 0 availWatched [agentARecord],
   Cycle.mk 600 availWatched [agentARecord],
   Cycle.mk 650 availOnline [agentARecord],
   Cycle.mk 700 availWatched [agentARecord],
   Cycle.mk 1300 availWatched [agentARecord]]

/- Helper lemmas about the dict / set operations. -/

theorem lookupKV_insertKV_self (l : List (Int × Int)) (k v : Int) :
    lookupKV (insertKV l k v) k = some v := by
  induction l with
  | nil => simp [insertKV, lookupKV]
  | cons p rest ih =>
    by_cases h : p.1 = k
    · simp [insertKV, h, lookupKV]
    · simp [insertKV, h, lookupKV, ih]

theorem lookupKV_insertKV_ne (l : List (Int × Int)) (k v a : Int) (h : k ≠ a) :
    lookupKV (insertKV l k v) a = lookupKV l a := by
  induction l with
  | nil => simp [insertKV, lookupKV, h]
  | cons p rest ih =>
    by_cases hp : p.1 = k
    · simp [insertKV, hp, lookupKV, h]
    · simp [insertKV, hp, lookupKV, ih]

theorem lookupKV_eraseKey_self (l : List (Int × Int)) (k : Int) :
    lookupKV (eraseKey l k) k = none := by
  induction l with
  | nil => simp [eraseKey, lookupKV]
  | cons p rest ih =>
    by_cases h : p.1 = k
    · simp [eraseKey, h, ih]
    · simp [eraseKey, h, lookupKV, ih]

theorem lookupKV_eraseKey_ne (l : List (Int × Int)) (k a : Int) (h : k ≠ a) :
    lookupKV (eraseKey l k) a = lookupKV l a := by
  induction l with
  | nil => simp [eraseKey, lookupKV]
  | cons p rest ih =>
    by_cases hp : p.1 = k
    · have hpa : ¬ p.1 = a := by rw [hp]; exact h
      simp [eraseKey, hp, lookupKV, hpa, h, ih]
    · simp [eraseKey, hp, lookupKV, ih]

theorem mem_removeSet (l : List Int) (x y : Int) :
    x ∈ removeSet l y ↔ x ∈ l ∧ x ≠ y := by
  induction l with
  | nil => simp [removeSet]
  | cons z rest ih =>
    simp only [removeSet]
    by_cases h : z = y
    · rw [if_pos h, ih]
      subst h
      constructor
      · rintro ⟨hx, hne⟩; exact ⟨List.mem_cons_of_mem _ hx, hne⟩
      · rintro ⟨hx, hne⟩
        rcases List.mem_cons.mp hx with h1 | h1
        · exact absurd h1 hne
        · exact ⟨h1, hne⟩
    · rw [if_neg h]
      constructor
      · intro hx
        rcases List.mem_cons.mp hx with h1 | h1
        · subst h1; exact ⟨List.mem_cons_self _ _, h⟩
        · rcases ih.mp h1 with ⟨h2, h3⟩
          exact ⟨List.mem_cons_of_mem _ h2, h3⟩
      · rintro ⟨hx, hne⟩
        rcases List.mem_cons.mp hx with h1 | h1
        · subst h1; exact List.mem_cons_self _ _
        · exact List.mem_cons_of_mem _ (ih.mpr ⟨h1, hne⟩)

theorem mem_addSet (l : List Int) (x y : Int) :
    x ∈ addSet l y ↔ x ∈ l ∨ x = y := by
  unfold addSet
  by_cases h : y ∈ l
  · simp only [if_pos h]
    constructor
    · exact Or.inl
    · rintro (hx | hx)
      · exact hx
      · exact hx ▸ h
  · simp [if_neg h, List.mem_append]

theorem mem_insertDesc (x y : String × Int) (l : List (String × Int)) :
    x ∈ insertDesc y l ↔ x = y ∨ x ∈ l := by
  induction l with
  | nil => simp [insertDesc]
  | cons z rest ih =>
    by_cases h : z.2 ≤ y.2
    · simp [insertDesc, h]
    · simp only [insertDesc, if_neg h, List.mem_cons, ih]
      tauto

theorem mem_sortActive (x : String × Int) (l : List (String × Int)) :
    x ∈ sortActive l ↔ x ∈ l := by
  induction l with
  | nil => simp [sortActive]
  | cons y rest ih => simp [sortActive, mem_insertDesc, ih]

/- Helper lemmas about the watched-status branch. -/

theorem trackWatched_times (threshold now agent_id : Int) (agent_name : String)
    (cs : CycleState) (times1 : List (Int × Int)) (alerted1 : List Int) (started : Int) :
    (trackWatched threshold now agent_id agent_name cs times1 alerted1 started).agent_status_times
      = times1 := by
  unfold trackWatched
  split <;> rfl

theorem trackWatched_active (threshold now agent_id : Int) (agent_name : String)
    (cs : CycleState) (times1 : List (Int × Int)) (alerted1 : List Int) (started : Int) :
    (trackWatched threshold now agent_id agent_name cs times1 alerted1 started).transfers_only_agents
      = cs.transfers_only_agents ++ [(agent_name, now - started)] := by
  unfold trackWatched
  split <;> rfl

theorem trackWatched_alerted (threshold now agent_id : Int) (agent_name : String)
    (cs : CycleState) (times1 : List (Int × Int)) (alerted1 : List Int) (started : Int) :
    (trackWatched threshold now agent_id agent_name cs times1 alerted1 started).alerted_agents
      = alerted1
    ∨ (trackWatched threshold now agent_id agent_name cs times1 alerted1 started).alerted_agents
      = addSet alerted1 agent_id := by
  unfold trackWatched
  split
  · exact Or.inr rfl
  · exact Or.inl rfl

theorem trackWatched_alerted_mem_ne (threshold now agent_id : Int) (agent_name : String)
    (cs : CycleState) (times1 : List (Int × Int)) (alerted1 : List Int) (started : Int)
    (a : Int) (ha : a ≠ agent_id) :
    (a ∈ (trackWatched threshold now agent_id agent_name cs times1 alerted1 started).alerted_agents
      ↔ a ∈ alerted1) := by
  rcases trackWatched_alerted threshold now agent_id agent_name cs times1 alerted1 started with h | h
  · rw [h]
  · rw [h, mem_addSet]
    constructor
    · rintro (hx | hx)
      · exact hx
      · exact absurd hx ha
    · exact Or.inl

theorem trackWatched_alerts_sent (threshold now agent_id : Int) (agent_name : String)
    (cs : CycleState) (times1 : List (Int × Int)) (alerted1 : List Int) (started : Int) :
    (trackWatched threshold now agent_id agent_name cs times1 alerted1 started).alerts_sent
      = cs.alerts_sent
    ∨ (trackWatched threshold now agent_id agent_name cs times1 alerted1 started).alerts_sent
      = cs.alerts_sent ++ [(agent_name, now - started)] := by
  unfold trackWatched
  split
  · exact Or.inr rfl
  · exact Or.inl rfl

/- Case-analysis lemmas about one loop iteration. -/

/-- A record whose id is excluded is skipped (`continue`): the cycle state is
returned unchanged. -/
theorem processAgent_ok_excluded (excl : List Int) (th : Int) (avail : Int → Avail)
    (now : Int) (cs cs' : CycleState) (rec : AgentRecord) (b : Int)
    (hb : rec.id = some b) (hexcl : b ∈ excl)
    (h : processAgent excl th avail now cs rec = .ok cs') : cs' = cs := by
  obtain ⟨oid, onm⟩ := rec
  dsimp only at hb
  subst hb
  simp only [processAgent, if_pos hexcl] at h
  exact (Except.ok.inj h).symm

/-- A record whose availability dict is empty (fetch failure) is skipped. -/
theorem processAgent_ok_emptyAvail (excl : List Int) (th : Int) (avail : Int → Avail)
    (now : Int) (cs cs' : CycleState) (rec : AgentRecord) (b : Int)
    (hb : rec.id = some b) (hav : avail b = Avail.empty)
    (h : processAgent excl th avail now cs rec = .ok cs') : cs' = cs := by
  obtain ⟨oid, onm⟩ := rec
  dsimp only at hb
  subst hb
  simp only [processAgent] at h
  by_cases hexcl : b ∈ excl
  · rw [if_pos hexcl] at h
    exact (Except.ok.inj h).symm
  · rw [if_neg hexcl] at h
    cases onm with
    | none => exact Except.noConfusion h
    | some nm =>
      rw [hav] at h
      dsimp only at h
      exact (Except.ok.inj h).symm

/-- Processing a record whose id is `b ≠ a` never touches agent `a`'s
episode or ledger membership. -/
theorem processAgent_frame (excl : List Int) (th : Int) (avail : Int → Avail)
    (now : Int) (cs cs' : CycleState) (rec : AgentRecord) (b a : Int)
    (hb : rec.id = some b) (hba : b ≠ a)
    (h : processAgent excl th avail now cs rec = .ok cs') :
    lookupKV cs'.agent_status_times a = lookupKV cs.agent_status_times a ∧
    (a ∈ cs'.alerted_agents ↔ a ∈ cs.alerted_agents) := by
  obtain ⟨oid, onm⟩ := rec
  dsimp only at hb
  subst hb
  simp only [processAgent] at h
  by_cases hexcl : b ∈ excl
  · rw [if_pos hexcl] at h
    rw [(Except.ok.inj h).symm]
    exact ⟨rfl, Iff.rfl⟩
  · rw [if_neg hexcl] at h
    cases onm with
    | none => exact Except.noConfusion h
    | some nm =>
      rcases hav : avail b with _ | st
      · rw [hav] at h
        dsimp only at h
        rw [(Except.ok.inj h).symm]
        exact ⟨rfl, Iff.rfl⟩
      · rw [hav] at h
        dsimp only at h
        by_cases hst : st = some "transfers_only"
        · rw [if_pos hst] at h
          rcases hlk : lookupKV cs.agent_status_times b with _ | s
          · rw [hlk] at h
            dsimp only at h
            rw [← Except.ok.inj h]
            constructor
            · rw [trackWatched_times, lookupKV_insertKV_ne _ _ _ _ hba]
            · rw [trackWatched_alerted_mem_ne _ _ _ _ _ _ _ _ _ (Ne.symm hba),
                mem_removeSet]
              constructor
              · exact And.left
              · intro hx; exact ⟨hx, Ne.symm hba⟩
          · rw [hlk] at h
            dsimp only at h
            rw [← Except.ok.inj h]
            constructor
            · rw [trackWatched_times]
            · exact trackWatched_alerted_mem_ne _ _ _ _ _ _ _ _ _ (Ne.symm hba)
        · rw [if_neg hst] at h
          rw [← Except.ok.inj h]
          constructor
          · exact lookupKV_eraseKey_ne _ _ _ hba
          · rw [mem_removeSet]
            constructor
            · exact And.left
            · intro hx; exact ⟨hx, Ne.symm hba⟩

/-- Processing agent `a`'s record when it is watched and already tracked:
`started_at` is left alone (the map is unchanged) and the active list gains
exactly the entry `(name, now - started_at)`. -/
theorem processAgent_watched_keeps (excl : List Int) (th : Int) (avail : Int → Avail)
    (now : Int) (cs cs' : CycleState) (rec : AgentRecord) (a : Int) (nm : String) (s : Int)
    (hid : rec.id = some a) (hnm : rec.name = some nm) (hexcl : a ∉ excl)
    (hav : avail a = Avail.state (some "transfers_only"))
    (hs : lookupKV cs.agent_status_times a = some s)
    (h : processAgent excl th avail now cs rec = .ok cs') :
    cs'.agent_status_times = cs.agent_status_times ∧
    cs'.transfers_only_agents = cs.transfers_only_agents ++ [(nm, now - s)] := by
  obtain ⟨oid, onm⟩ := rec
  dsimp only at hid hnm
  subst hid
  subst hnm
  simp only [processAgent, if_neg hexcl] at h
  rw [hav] at h
  dsimp only at h
  rw [if_pos rfl, hs] at h
  dsimp only at h
  rw [← Except.ok.inj h]
  exact ⟨trackWatched_times _ _ _ _ _ _ _ _, trackWatched_active _ _ _ _ _ _ _ _⟩

/-- Processing agent `a`'s record when it is watched and not yet tracked:
a fresh episode is created with `started_at = now` and the active list
gains the entry `(name, now - now)`. -/
theorem processAgent_watched_creates (excl : List Int) (th : Int) (avail : Int → Avail)
    (now : Int) (cs cs' : CycleState) (rec : AgentRecord) (a : Int) (nm : String)
    (hid : rec.id = some a) (hnm : rec.name = some nm) (hexcl : a ∉ excl)
    (hav : avail a = Avail.state (some "transfers_only"))
    (hs : lookupKV cs.agent_status_times a = none)
    (h : processAgent excl th avail now cs rec = .ok cs') :
    cs'.agent_status_times = insertKV cs.agent_status_times a now ∧
    cs'.transfers_only_agents = cs.transfers_only_agents ++ [(nm, now - now)] := by
  obtain ⟨oid, onm⟩ := rec
  dsimp only at hid hnm
  subst hid
  subst hnm
  simp only [processAgent, if_neg hexcl] at h
  rw [hav] at h
  dsimp only at h
  rw [if_pos rfl, hs] at h
  dsimp only at h
  rw [← Except.ok.inj h]
  exact ⟨trackWatched_times _ _ _ _ _ _ _ _, trackWatched_active _ _ _ _ _ _ _ _⟩

/-- One loop iteration only ever appends to the per-cycle report lists, and
every appended entry carries the processed record's own name. -/
theorem processAgent_appends (excl : List Int) (th : Int) (avail : Int → Avail)
    (now : Int) (cs cs' : CycleState) (rec : AgentRecord)
    (h : processAgent excl th avail now cs rec = .ok cs') :
    (∀ x, x ∈ cs.transfers_only_agents → x ∈ cs'.transfers_only_agents) ∧
    (∀ x, x ∈ cs'.transfers_only_agents → x ∈ cs.transfers_only_agents ∨ rec.name = some x.1) ∧
    (∀ x, x ∈ cs'.alerts_sent → x ∈ cs.alerts_sent ∨ rec.name = some x.1) := by
  obtain ⟨oid, onm⟩ := rec
  cases oid with
  | none => exact Except.noConfusion h
  | some b =>
    simp only [processAgent] at h
    by_cases hexcl : b ∈ excl
    · rw [if_pos hexcl] at h
      rw [(Except.ok.inj h).symm]
      exact ⟨fun x hx => hx, fun x hx => Or.inl hx, fun x hx => Or.inl hx⟩
    · rw [if_neg hexcl] at h
      cases onm with
      | none => exact Except.noConfusion h
      | some nm =>
        rcases hav : avail b with _ | st
        · rw [hav] at h
          dsimp only at h
          rw [(Except.ok.inj h).symm]
          exact ⟨fun x hx => hx, fun x hx => Or.inl hx, fun x hx => Or.inl hx⟩
        · rw [hav] at h
          dsimp only at h
          by_cases hst : st = some "transfers_only"
          · rw [if_pos hst] at h
            have main : ∀ times1 alerted1 started,
                (Except.ok (trackWatched th now b nm cs times1 alerted1 started)
                  : Except String CycleState) = .ok cs' →
                (∀ x, x ∈ cs.transfers_only_agents → x ∈ cs'.transfers_only_agents) ∧
                (∀ x, x ∈ cs'.transfers_only_agents →
                  x ∈ cs.transfers_only_agents ∨ (some nm : Option String) = some x.1) ∧
                (∀ x, x ∈ cs'.alerts_sent →
                  x ∈ cs.alerts_sent ∨ (some nm : Option String) = some x.1) := by
              intro times1 alerted1 started h1
              rw [← Except.ok.inj h1]
              refine ⟨?_, ?_, ?_⟩
              · intro x hx
                rw [trackWatched_active]
                exact List.mem_append_left _ hx
              · intro x hx
                rw [trackWatched_active] at hx
                rcases List.mem_append.mp hx with h2 | h2
                · exact Or.inl h2
                · rcases List.mem_singleton.mp h2 with rfl
                  exact Or.inr rfl
              · intro x hx
                rcases trackWatched_alerts_sent th now b nm cs times1 alerted1 started
                    with h2 | h2
                · rw [h2] at hx
                  exact Or.inl hx
                · rw [h2] at hx
                  rcases List.mem_append.mp hx with h3 | h3
                  · exact Or.inl h3
                  · rcases List.mem_singleton.mp h3 with rfl
                    exact Or.inr rfl
            rcases hlk : lookupKV cs.agent_status_times b with _ | s
            · rw [hlk] at h
              dsimp only at h
              exact main _ _ _ h
            · rw [hlk] at h
              dsimp only at h
              exact main _ _ _ h
          · rw [if_neg hst] at h
            rw [← Except.ok.inj h]
            exact ⟨fun x hx => hx, fun x hx => Or.inl hx, fun x hx => Or.inl hx⟩

/-- One loop iteration preserves the invariant that every id in the alerted
ledger has a live entry in the status-time map. -/
theorem processAgent_ledger_inv (excl : List Int) (th : Int) (avail : Int → Avail)
    (now : Int) (cs cs' : CycleState) (rec : AgentRecord)
    (h : processAgent excl th avail now cs rec = .ok cs')
    (hP : ∀ x ∈ cs.alerted_agents, (lookupKV cs.agent_status_times x).isSome) :
    ∀ x ∈ cs'.alerted_agents, (lookupKV cs'.agent_status_times x).isSome := by
  obtain ⟨oid, onm⟩ := rec
  cases oid with
  | none => exact Except.noConfusion h
  | some b =>
    simp only [processAgent] at h
    by_cases hexcl : b ∈ excl
    · rw [if_pos hexcl] at h
      rw [(Except.ok.inj h).symm]
      exact hP
    · rw [if_neg hexcl] at h
      cases onm with
      | none => exact Except.noConfusion h
      | some nm =>
        rcases hav : avail b with _ | st
        · rw [hav] at h
          dsimp only at h
          rw [(Except.ok.inj h).symm]
          exact hP
        · rw [hav] at h
          dsimp only at h
          by_cases hst : st = some "transfers_only"
          · rw [if_pos hst] at h
            rcases hlk : lookupKV cs.agent_status_times b with _ | s
            · rw [hlk] at h
              dsimp only at h
              rw [← Except.ok.inj h]
              intro x hx
              rw [trackWatched_times]
              rcases trackWatched_alerted th now b nm cs
                  (insertKV cs.agent_status_times b now)
                  (removeSet cs.alerted_agents b) now with h2 | h2
              · rw [h2, mem_removeSet] at hx
                rw [lookupKV_insertKV_ne _ _ _ _ (Ne.symm hx.2)]
                exact hP x hx.1
              · rw [h2, mem_addSet] at hx
                rcases hx with hx | rfl
                · rw [mem_removeSet] at hx
                  rw [lookupKV_insertKV_ne _ _ _ _ (Ne.symm hx.2)]
                  exact hP x hx.1
                · rw [lookupKV_insertKV_self]
                  rfl
            · rw [hlk] at h
              dsimp only at h
              rw [← Except.ok.inj h]
              intro x hx
              rw [trackWatched_times]
              rcases trackWatched_alerted th now b nm cs
                  cs.agent_status_times cs.alerted_agents s with h2 | h2
              · rw [h2] at hx
                exact hP x hx
              · rw [h2, mem_addSet] at hx
                rcases hx with hx | rfl
                · exact hP x hx
                · rw [hlk]
                  rfl
          · rw [if_neg hst] at h
            rw [← Except.ok.inj h]
            intro x hx
            dsimp only at hx ⊢
            rw [mem_removeSet] at hx
            rw [lookupKV_eraseKey_ne _ _ _ (Ne.symm hx.2)]
            exact hP x hx.1

/-- A record with no `id` key raises `KeyError` immediately. -/
theorem processAgent_id_none (excl : List Int) (th : Int) (avail : Int → Avail)
    (now : Int) (cs : CycleState) (rec : AgentRecord) (hid : rec.id = none) :
    processAgent excl th avail now cs rec = .error "KeyError: id" := by
  obtain ⟨oid, onm⟩ := rec
  dsimp only at hid
  subst hid
  rfl

/-- A non-excluded record with no `name` key raises `KeyError`. -/
theorem processAgent_name_none (excl : List Int) (th : Int) (avail : Int → Avail)
    (now : Int) (cs : CycleState) (rec : AgentRecord) (b : Int)
    (hid : rec.id = some b) (hexcl : b ∉ excl) (hnm : rec.name = none) :
    processAgent excl th avail now cs rec = .error "KeyError: name" := by
  obtain ⟨oid, onm⟩ := rec
  dsimp only at hid hnm
  subst hid
  subst hnm
  simp only [processAgent, if_neg hexcl]

/-- Generic invariant preservation along the `for agent in agents` loop. -/
theorem processAgents_inv (excl : List Int) (th : Int) (avail : Int → Avail) (now : Int)
    (P : CycleState → Prop) (l : List AgentRecord) :
    ∀ (cs cs' : CycleState),
      (∀ c c' rec, rec ∈ l → P c → processAgent excl th avail now c rec = .ok c' → P c') →
      P cs → processAgents excl th avail now l cs = .ok cs' → P cs' := by
  induction l with
  | nil =>
    intro cs cs' _ hP h
    simp only [processAgents] at h
    rw [← Except.ok.inj h]
    exact hP
  | cons rec rest ih =>
    intro cs cs' hstep hP h
    simp only [processAgents] at h
    rcases h1 : processAgent excl th avail now cs rec with e | c1
    · rw [h1] at h
      exact Except.noConfusion h
    · rw [h1] at h
      dsimp only at h
      exact ih c1 cs' (fun c c' r hr => hstep c c' r (List.mem_cons_of_mem _ hr))
        (hstep cs c1 rec (List.mem_cons_self _ _) hP h1) h

/-- How a successful cycle decomposes: either the fetched list was empty and
the update was skipped, or the loop ran and the active list was sorted. -/
theorem monitorCycle_ok_elim (excl : List Int) (th : Int) (avail : Int → Avail)
    (now : Int) (times : List (Int × Int)) (alerted : List Int)
    (agents : List AgentRecord) (cs : CycleState)
    (h : monitorCycle excl th avail now times alerted agents = .ok cs) :
    (agents.isEmpty = true ∧ cs = ⟨times, alerted, [], []⟩) ∨
    (∃ cs0, processAgents excl th avail now agents ⟨times, alerted, [], []⟩ = .ok cs0 ∧
      cs = { cs0 with transfers_only_agents := sortActive cs0.transfers_only_agents }) := by
  unfold monitorCycle at h
  by_cases he : agents.isEmpty
  · rw [if_pos he] at h
    exact Or.inl ⟨he, (Except.ok.inj h).symm⟩
  · rw [if_neg he] at h
    rcases h0 : processAgents excl th avail now agents ⟨times, alerted, [], []⟩ with e | cs0
    · rw [h0] at h
      exact Except.noConfusion h
    · rw [h0] at h
      dsimp only at h
      exact Or.inr ⟨cs0, rfl, (Except.ok.inj h).symm⟩

/-- Cycle-level frame: an agent whose id matches no record of the snapshot is
never touched by the update. -/
theorem monitorCycle_frame_of_ids_ne (excl : List Int) (th : Int) (avail : Int → Avail)
    (now : Int) (times : List (Int × Int)) (alerted : List Int)
    (agents : List AgentRecord) (cs : CycleState) (a : Int)
    (hids : ∀ rec ∈ agents, rec.id ≠ some a)
    (h : monitorCycle excl th avail now times alerted agents = .ok cs) :
    lookupKV cs.agent_status_times a = lookupKV times a ∧
    (a ∈ cs.alerted_agents ↔ a ∈ alerted) := by
  rcases monitorCycle_ok_elim excl th avail now times alerted agents cs h with
    ⟨_, rfl⟩ | ⟨cs0, h0, rfl⟩
  · exact ⟨rfl, Iff.rfl⟩
  · have inv := processAgents_inv excl th avail now
      (fun c => lookupKV c.agent_status_times a = lookupKV times a ∧
        (a ∈ c.alerted_agents ↔ a ∈ alerted)) agents ⟨times, alerted, [], []⟩ cs0
      (fun c c' rec hrec hP h1 => by
        rcases hrid : rec.id with _ | b
        · rw [processAgent_id_none excl th avail now c rec hrid] at h1
          exact Except.noConfusion h1
        · have hba : b ≠ a := fun hq => hids rec hrec (hq ▸ hrid)
          rcases processAgent_frame excl th avail now c c' rec b a hrid hba h1 with ⟨e1, e2⟩
          exact ⟨e1.trans hP.1, e2.trans hP.2⟩)
      ⟨rfl, Iff.rfl⟩ h0
    exact inv

/-- Cycle-level frame: when the availability lookup for agent `a` comes back
empty, the update leaves `a`'s episode and ledger membership unchanged no
matter what the snapshot contains. -/
theorem monitorCycle_frame_of_emptyAvail (excl : List Int) (th : Int) (avail : Int → Avail)
    (now : Int) (times : List (Int × Int)) (alerted : List Int)
    (agents : List AgentRecord) (cs : CycleState) (a : Int)
    (hav : avail a = Avail.empty)
    (h : monitorCycle excl th avail now times alerted agents = .ok cs) :
    lookupKV cs.agent_status_times a = lookupKV times a ∧
    (a ∈ cs.alerted_agents ↔ a ∈ alerted) := by
  rcases monitorCycle_ok_elim excl th avail now times alerted agents cs h with
    ⟨_, rfl⟩ | ⟨cs0, h0, rfl⟩
  · exact ⟨rfl, Iff.rfl⟩
  · have inv := processAgents_inv excl th avail now
      (fun c => lookupKV c.agent_status_times a = lookupKV times a ∧
        (a ∈ c.alerted_agents ↔ a ∈ alerted)) agents ⟨times, alerted, [], []⟩ cs0
      (fun c c' rec _ hP h1 => by
        rcases hrid : rec.id with _ | b
        · rw [processAgent_id_none excl th avail now c rec hrid] at h1
          exact Except.noConfusion h1
        · by_cases hba : b = a
          · subst hba
            rw [processAgent_ok_emptyAvail excl th avail now c c' rec b hrid hav h1]
            exact hP
          · rcases processAgent_frame excl th avail now c c' rec b a hrid hba h1 with ⟨e1, e2⟩
            exact ⟨e1.trans hP.1, e2.trans hP.2⟩)
      ⟨rfl, Iff.rfl⟩ h0
    exact inv

/-- Cycle-level frame: an excluded agent's episode and ledger membership are
never touched by the update. -/
theorem monitorCycle_frame_of_excluded (excl : List Int) (th : Int) (avail : Int → Avail)
    (now : Int) (times : List (Int × Int)) (alerted : List Int)
    (agents : List AgentRecord) (cs : CycleState) (a : Int)
    (hexcl : a ∈ excl)
    (h : monitorCycle excl th avail now times alerted agents = .ok cs) :
    lookupKV cs.agent_status_times a = lookupKV times a ∧
    (a ∈ cs.alerted_agents ↔ a ∈ alerted) := by
  rcases monitorCycle_ok_elim excl th avail now times alerted agents cs h with
    ⟨_, rfl⟩ | ⟨cs0, h0, rfl⟩
  · exact ⟨rfl, Iff.rfl⟩
  · have inv := processAgents_inv excl th avail now
      (fun c => lookupKV c.agent_status_times a = lookupKV times a ∧
        (a ∈ c.alerted_agents ↔ a ∈ alerted)) agents ⟨times, alerted, [], []⟩ cs0
      (fun c c' rec _ hP h1 => by
        rcases hrid : rec.id with _ | b
        · rw [processAgent_id_none excl th avail now c rec hrid] at h1
          exact Except.noConfusion h1
        · by_cases hba : b = a
          · subst hba
            rw [processAgent_ok_excluded excl th avail now c c' rec b hrid hexcl h1]
            exact hP
          · rcases processAgent_frame excl th avail now c c' rec b a hrid hba h1 with ⟨e1, e2⟩
            exact ⟨e1.trans hP.1, e2.trans hP.2⟩)
      ⟨rfl, Iff.rfl⟩ h0
    exact inv

/-- Cycle-level: if every record bearing display name `nm` has id `a`, and
`a`'s records are always skipped (`a` excluded, or `a`'s availability
empty), then no `(nm, _)` entry is ever reported in the active list or the
alert list. -/
theorem monitorCycle_no_entries_of_skipped (excl : List Int) (th : Int)
    (avail : Int → Avail) (now : Int) (times : List (Int × Int)) (alerted : List Int)
    (agents : List AgentRecord) (cs : CycleState) (a : Int) (nm : String)
    (hnames : ∀ rec ∈ agents, rec.name = some nm → rec.id = some a)
    (hskip : a ∈ excl ∨ avail a = Avail.empty)
    (h : monitorCycle excl th avail now times alerted agents = .ok cs) :
    (∀ d, (nm, d) ∉ cs.transfers_only_agents) ∧ (∀ d, (nm, d) ∉ cs.alerts_sent) := by
  rcases monitorCycle_ok_elim excl th avail now times alerted agents cs h with
    ⟨_, rfl⟩ | ⟨cs0, h0, rfl⟩
  · constructor <;> intro d hd <;> simp at hd
  · have inv := processAgents_inv excl th avail now
      (fun c => (∀ d, (nm, d) ∉ c.transfers_only_agents) ∧ (∀ d, (nm, d) ∉ c.alerts_sent))
      agents ⟨times, alerted, [], []⟩ cs0
      (fun c c' rec hrec hP h1 => by
        have skipped : c' = c → (∀ d, (nm, d) ∉ c'.transfers_only_agents) ∧
            (∀ d, (nm, d) ∉ c'.alerts_sent) := fun he => he ▸ hP
        rcases processAgent_appends excl th avail now c c' rec h1 with ⟨_, happ2, happ3⟩
        by_cases hrec_nm : rec.name = some nm
        · have hrid : rec.id = some a := hnames rec hrec hrec_nm
          rcases hskip with hx | hx
          · exact skipped (processAgent_ok_excluded excl th avail now c c' rec a hrid hx h1)
          · exact skipped (processAgent_ok_emptyAvail excl th avail now c c' rec a hrid hx h1)
        · constructor
          · intro d hd
            rcases happ2 (nm, d) hd with h2 | h2
            · exact hP.1 d h2
            · exact hrec_nm h2
          · intro d hd
            rcases happ3 (nm, d) hd with h2 | h2
            · exact hP.2 d h2
            · exact hrec_nm h2)
      ⟨fun d hd => by simp at hd, fun d hd => by simp at hd⟩ h0
    constructor
    · intro d hd
      exact inv.1 d ((mem_sortActive _ _).mp hd)
    · intro d hd
      exact inv.2 d hd

/-- The active list only grows along the loop. -/
theorem processAgents_active_mono (excl : List Int) (th : Int) (avail : Int → Avail)
    (now : Int) (l : List AgentRecord) (cs cs' : CycleState) (x : String × Int)
    (h : processAgents excl th avail now l cs = .ok cs')
    (hx : x ∈ cs.transfers_only_agents) : x ∈ cs'.transfers_only_agents :=
  processAgents_inv excl th avail now (fun c => x ∈ c.transfers_only_agents) l cs cs'
    (fun c c' rec _ hP h1 => (processAgent_appends excl th avail now c c' rec h1).1 x hP)
    hx h

/-- Along a loop in which all of agent `a`'s records are watched, `a`'s
`started_at` is never modified. -/
theorem processAgents_watched_keeps_lookup (excl : List Int) (th : Int)
    (avail : Int → Avail) (now : Int) (a : Int) (nm : String) (s : Int)
    (l : List AgentRecord) (cs cs' : CycleState)
    (hall : ∀ rec ∈ l, rec.id = some a → rec = ⟨some a, some nm⟩)
    (hexcl : a ∉ excl) (hav : avail a = Avail.state (some "transfers_only"))
    (hs : lookupKV cs.agent_status_times a = some s)
    (h : processAgents excl th avail now l cs = .ok cs') :
    lookupKV cs'.agent_status_times a = some s := by
  refine processAgents_inv excl th avail now
    (fun c => lookupKV c.agent_status_times a = some s) l cs cs'
    (fun c c' rec hrec hP h1 => ?_) hs h
  rcases hrid : rec.id with _ | b
  · rw [processAgent_id_none excl th avail now c rec hrid] at h1
    exact Except.noConfusion h1
  · by_cases hba : b = a
    · subst hba
      have hcan := hall rec hrec hrid
      have hnm : rec.name = some nm := by rw [hcan]
      rcases processAgent_watched_keeps excl th avail now c c' rec b nm s hrid hnm
          hexcl hav hP h1 with ⟨et, _⟩
      rw [et]
      exact hP
    · exact (processAgent_frame excl th avail now c c' rec b a hrid hba h1).1.trans hP

/-- Along a loop containing agent `a`'s watched record, with an existing
episode started at `s`, the episode survives and the active list receives
the entry `(nm, now - s)`. -/
theorem processAgents_watched_keeps_mem (excl : List Int) (th : Int)
    (avail : Int → Avail) (now : Int) (a : Int) (nm : String) (s : Int) :
    ∀ (l : List AgentRecord) (cs cs' : CycleState),
    (∀ rec ∈ l, rec.id = some a → rec = ⟨some a, some nm⟩) →
    a ∉ excl → avail a = Avail.state (some "transfers_only") →
    lookupKV cs.agent_status_times a = some s →
    (⟨some a, some nm⟩ : AgentRecord) ∈ l →
    processAgents excl th avail now l cs = .ok cs' →
    lookupKV cs'.agent_status_times a = some s ∧
    (nm, now - s) ∈ cs'.transfers_only_agents := by
  intro l
  induction l with
  | nil =>
    intro cs cs' _ _ _ _ hmem _
    simp at hmem
  | cons rec rest ih =>
    intro cs cs' hall hexcl hav hs hmem h
    simp only [processAgents] at h
    rcases h1 : processAgent excl th avail now cs rec with e | c1
    · rw [h1] at h
      exact Except.noConfusion h
    · rw [h1] at h
      dsimp only at h
      have hall' : ∀ r ∈ rest, r.id = some a → r = ⟨some a, some nm⟩ :=
        fun r hr => hall r (List.mem_cons_of_mem _ hr)
      by_cases hb : rec.id = some a
      · have hcan := hall rec (List.mem_cons_self _ _) hb
        have hnm : rec.name = some nm := by rw [hcan]
        rcases processAgent_watched_keeps excl th avail now cs c1 rec a nm s hb hnm
            hexcl hav hs h1 with ⟨et, ea⟩
        have hs1 : lookupKV c1.agent_status_times a = some s := by rw [et]; exact hs
        have hmem1 : (nm, now - s) ∈ c1.transfers_only_agents := by
          rw [ea]
          exact List.mem_append_right _ (List.mem_singleton.mpr rfl)
        exact ⟨processAgents_watched_keeps_lookup excl th avail now a nm s rest c1 cs'
            hall' hexcl hav hs1 h,
          processAgents_active_mono excl th avail now rest c1 cs' _ h hmem1⟩
      · rcases hrid : rec.id with _ | b
        · rw [processAgent_id_none excl th avail now cs rec hrid] at h1
          exact Except.noConfusion h1
        · have hba : b ≠ a := fun he => hb (he ▸ hrid)
          have hs1 : lookupKV c1.agent_status_times a = some s :=
            (processAgent_frame excl th avail now cs c1 rec b a hrid hba h1).1.trans hs
          have hmem' : (⟨some a, some nm⟩ : AgentRecord) ∈ rest := by
            rcases List.mem_cons.mp hmem with heq | hm
            · exact absurd (by rw [← heq]) hb
            · exact hm
          exact ih c1 cs' hall' hexcl hav hs1 hmem' h

/-- Along a loop containing agent `a`'s watched record, with no existing
episode, a fresh episode is created with `started_at = now` and the active
list receives the entry `(nm, now - now)`. -/
theorem processAgents_watched_creates_mem (excl : List Int) (th : Int)
    (avail : Int → Avail) (now : Int) (a : Int) (nm : String) :
    ∀ (l : List AgentRecord) (cs cs' : CycleState),
    (∀ rec ∈ l, rec.id = some a → rec = ⟨some a, some nm⟩) →
    a ∉ excl → avail a = Avail.state (some "transfers_only") →
    lookupKV cs.agent_status_times a = none →
    (⟨some a, some nm⟩ : AgentRecord) ∈ l →
    processAgents excl th avail now l cs = .ok cs' →
    lookupKV cs'.agent_status_times a = some now ∧
    (nm, now - now) ∈ cs'.transfers_only_agents := by
  intro l
  induction l with
  | nil =>
    intro cs cs' _ _ _ _ hmem _
    simp at hmem
  | cons rec rest ih =>
    intro cs cs' hall hexcl hav hs hmem h
    simp only [processAgents] at h
    rcases h1 : processAgent excl th avail now cs rec with e | c1
    · rw [h1] at h
      exact Except.noConfusion h
    · rw [h1] at h
      dsimp only at h
      have hall' : ∀ r ∈ rest, r.id = some a → r = ⟨some a, some nm⟩ :=
        fun r hr => hall r (List.mem_cons_of_mem _ hr)
      by_cases hb : rec.id = some a
      · have hcan := hall rec (List.mem_cons_self _ _) hb
        have hnm : rec.name = some nm := by rw [hcan]
        rcases processAgent_watched_creates excl th avail now cs c1 rec a nm hb hnm
            hexcl hav hs h1 with ⟨et, ea⟩
        have hs1 : lookupKV c1.agent_status_times a = some now := by
          rw [et]
          exact lookupKV_insertKV_self _ _ _
        have hmem1 : (nm, now - now) ∈ c1.transfers_only_agents := by
          rw [ea]
          exact List.mem_append_right _ (List.mem_singleton.mpr rfl)
        exact ⟨processAgents_watched_keeps_lookup excl th avail now a nm now rest c1 cs'
            hall' hexcl hav hs1 h,
          processAgents_active_mono excl th avail now rest c1 cs' _ h hmem1⟩
      · rcases hrid : rec.id with _ | b
        · rw [processAgent_id_none excl th avail now cs rec hrid] at h1
          exact Except.noConfusion h1
        · have hba : b ≠ a := fun he => hb (he ▸ hrid)
          have hs1 : lookupKV c1.agent_status_times a = none :=
            (processAgent_frame excl th avail now cs c1 rec b a hrid hba h1).1.trans hs
          have hmem' : (⟨some a, some nm⟩ : AgentRecord) ∈ rest := by
            rcases List.mem_cons.mp hmem with heq | hm
            · exact absurd (by rw [← heq]) hb
            · exact hm
          exact ih c1 cs' hall' hexcl hav hs1 hmem' h

/-- Cycle-level: a watched, already-tracked agent keeps its `started_at` and
is reported with duration `now - started_at`. -/
theorem monitorCycle_watched_keeps (excl : List Int) (th : Int) (avail : Int → Avail)
    (now : Int) (times : List (Int × Int)) (alerted : List Int)
    (agents : List AgentRecord) (cs : CycleState) (a : Int) (nm : String) (s : Int)
    (hall : ∀ rec ∈ agents, rec.id = some a → rec = ⟨some a, some nm⟩)
    (hexcl : a ∉ excl) (hav : avail a = Avail.state (some "transfers_only"))
    (hmem : (⟨some a, some nm⟩ : AgentRecord) ∈ agents)
    (hs : lookupKV times a = some s)
    (h : monitorCycle excl th avail now times alerted agents = .ok cs) :
    lookupKV cs.agent_status_times a = some s ∧
    (nm, now - s) ∈ cs.transfers_only_agents := by
  rcases monitorCycle_ok_elim excl th avail now times alerted agents cs h with
    ⟨he, _⟩ | ⟨cs0, h0, rfl⟩
  · rw [List.isEmpty_iff.mp he] at hmem
    simp at hmem
  · rcases processAgents_watched_keeps_mem excl th avail now a nm s agents
        ⟨times, alerted, [], []⟩ cs0 hall hexcl hav hs hmem h0 with ⟨e1, e2⟩
    exact ⟨e1, (mem_sortActive _ _).mpr e2⟩

/-- Cycle-level: a watched, untracked agent gets a fresh episode with
`started_at = now`. -/
theorem monitorCycle_watched_creates (excl : List Int) (th : Int) (avail : Int → Avail)
    (now : Int) (times : List (Int × Int)) (alerted : List Int)
    (agents : List AgentRecord) (cs : CycleState) (a : Int) (nm : String)
    (hall : ∀ rec ∈ agents, rec.id = some a → rec = ⟨some a, some nm⟩)
    (hexcl : a ∉ excl) (hav : avail a = Avail.state (some "transfers_only"))
    (hmem : (⟨some a, some nm⟩ : AgentRecord) ∈ agents)
    (hs : lookupKV times a = none)
    (h : monitorCycle excl th avail now times alerted agents = .ok cs) :
    lookupKV cs.agent_status_times a = some now ∧
    (nm, now - now) ∈ cs.transfers_only_agents := by
  rcases monitorCycle_ok_elim excl th avail now times alerted agents cs h with
    ⟨he, _⟩ | ⟨cs0, h0, rfl⟩
  · rw [List.isEmpty_iff.mp he] at hmem
    simp at hmem
  · rcases processAgents_watched_creates_mem excl th avail now a nm agents
        ⟨times, alerted, [], []⟩ cs0 hall hexcl hav hs hmem h0 with ⟨e1, e2⟩
    exact ⟨e1, (mem_sortActive _ _).mpr e2⟩

/-- Run-level: across any run of cycles that all keep agent `a` watched, an
episode started at `s` keeps `started_at = s` in every cycle of the trace,
and every cycle reports `a` with duration `now - s`. -/
theorem runTrace_watched_keeps (excl : List Int) (th : Int) (a : Int) (nm : String)
    (s : Int) :
    ∀ (steps : List Cycle) (times : List (Int × Int)) (alerted : List Int)
      (trace : List CycleState),
    runTrace excl th steps times alerted = .ok trace →
    (∀ c ∈ steps, watchedCycleFor excl a nm c) →
    lookupKV times a = some s →
    (∀ cs ∈ trace, lookupKV cs.agent_status_times a = some s) ∧
    (∀ p ∈ steps.zip trace, (nm, p.1.now - s) ∈ p.2.transfers_only_agents) := by
  intro steps
  induction steps with
  | nil =>
    intro times alerted trace h _ _
    simp only [runTrace] at h
    rw [← Except.ok.inj h]
    constructor
    · intro cs hcs
      simp at hcs
    · intro p hp
      simp at hp
  | cons c rest ih =>
    intro times alerted trace h hgood hs
    simp only [runTrace] at h
    rcases h1 : monitorCycle excl th c.avail c.now times alerted c.agents with e | cs1
    · rw [h1] at h
      exact Except.noConfusion h
    · rw [h1] at h
      dsimp only at h
      rcases h2 : runTrace excl th rest cs1.agent_status_times cs1.alerted_agents
          with e | tr
      · rw [h2] at h
        exact Except.noConfusion h
      · rw [h2] at h
        dsimp only at h
        rw [← Except.ok.inj h]
        rcases hgood c (List.mem_cons_self _ _) with ⟨hexcl, hav, hmem, hall⟩
        rcases monitorCycle_watched_keeps excl th c.avail c.now times alerted c.agents
            cs1 a nm s hall hexcl hav hmem hs h1 with ⟨e1, e2⟩
        rcases ih cs1.agent_status_times cs1.alerted_agents tr h2
            (fun c' hc' => hgood c' (List.mem_cons_of_mem _ hc')) e1 with ⟨ih1, ih2⟩
        constructor
        · intro cs hcs
          rcases List.mem_cons.mp hcs with rfl | hcs'
          · exact e1
          · exact ih1 cs hcs'
        · intro p hp
          rcases List.mem_cons.mp hp with rfl | hp'
          · exact e2
          · exact ih2 p hp'

/-- If the agent is already in the alerted ledger, the watched branch only
recomputes the duration: no alert is sent and the state is unchanged. -/
theorem trackWatched_no_alert_when_ledgered (th now agent_id : Int) (nm : String)
    (cs : CycleState) (times1 : List (Int × Int)) (alerted1 : List Int) (started : Int)
    (h : agent_id ∈ alerted1) :
    trackWatched th now agent_id nm cs times1 alerted1 started
      = ⟨times1, alerted1, cs.transfers_only_agents ++ [(nm, now - started)],
         cs.alerts_sent⟩ := by
  unfold trackWatched
  rw [if_neg (fun hc => hc.2 h)]

/- Claim theorems. -/

/-- C1, counterexample.  Agent 1 has a live episode (started at 0) and an
outstanding ledger entry, and is absent from the cycle's snapshot (which
contains only agent 2).  The claim says the update deletes agent 1's
episode and removes it from the ledger; in fact the update succeeds with
agent 1's episode still present (`lookupKV … 1 = some 0`) and agent 1
still in the ledger. -/
theorem monitorCycle_keeps_absent_agent_cex :
    monitorCycle [] 600 availWatched 100 [(1, 0)] [1] [⟨some 2, some "B"⟩]
      = .ok ⟨[(1, 0), (2, 100)], [1], [("B", 0)], []⟩ ∧
    lookupKV [(1, 0), (2, 100)] 1 = some 0 ∧ (1 : Int) ∈ ([1] : List Int) :=
  ⟨rfl, rfl, List.mem_singleton.mpr rfl⟩

/-- C1 as amended: `monitor_agents` iterates only over the fetched snapshot,
so an agent with a live episode that is absent from the snapshot is left
exactly unchanged by the update — its episode survives with the same
`started_at` and its ledger entry is neither added nor removed. -/
theorem absent_agents_left_unchanged (excl : List Int) (th : Int) (avail : Int → Avail)
    (now : Int) (times : List (Int × Int)) (alerted : List Int)
    (agents : List AgentRecord) (cs : CycleState) (a : Int)
    (hlive : (lookupKV times a).isSome = true)
    (hids : ∀ rec ∈ agents, rec.id ≠ some a)
    (h : monitorCycle excl th avail now times alerted agents = .ok cs) :
    lookupKV cs.agent_status_times a = lookupKV times a ∧
    (a ∈ cs.alerted_agents ↔ a ∈ alerted) :=
  monitorCycle_frame_of_ids_ne excl th avail now times alerted agents cs a hids h

/-- Witness for `absent_agents_left_unchanged` at the counterexample input. -/
theorem absent_agents_left_unchanged_witness :
    lookupKV [(1, 0), (2, 100)] 1 = lookupKV [(1, 0)] 1 ∧
    ((1 : Int) ∈ ([1] : List Int) ↔ (1 : Int) ∈ ([1] : List Int)) :=
  absent_agents_left_unchanged [] 600 availWatched 100 [(1, 0)] [1]
    [⟨some 2, some "B"⟩] ⟨[(1, 0), (2, 100)], [1], [("B", 0)], []⟩ 1
    rfl (by decide) rfl

/-- C2, counterexample.  Agent 1 has an outstanding ledger entry; invoking
the acknowledgment handler returns the ledger with the entry still present,
so the handler does not remove it as the claim says. -/
theorem handle_acknowledgment_keeps_ledger_cex :
    (handle_acknowledgment "A" "U123" "chan" "123.45" [(1, 0)] [1]).1
      = ([(1, 0)], [1]) ∧
    (1 : Int) ∈ (handle_acknowledgment "A" "U123" "chan" "123.45" [(1, 0)] [1]).1.2 :=
  ⟨rfl, List.mem_singleton.mpr rfl⟩

/-- C2 as amended: the acknowledgment handler only posts a thread reply and
edits the alert message; it never touches the monitor's state, so for every
agent — with or without an outstanding ledger entry — it leaves the
status-time map and the alerted ledger exactly unchanged, and (its body
being wrapped in try/except, hence total here) it never raises. -/
theorem handle_acknowledgment_state_noop (agent_name user channel message_ts : String)
    (times : List (Int × Int)) (alerted : List Int) :
    (handle_acknowledgment agent_name user channel message_ts times alerted).1
      = (times, alerted) :=
  rfl

/-- C3, counterexample.  A snapshot whose first record lacks the `id` key
(followed by a perfectly good record) makes the whole update raise
`KeyError` instead of skipping the bad record: the good record is never
processed and the exception escapes `monitor_agents`. -/
theorem malformed_record_aborts_update_cex :
    monitorCycle [] 600 availWatched 0 [] [] [⟨none, some "B"⟩, ⟨some 2, some "G"⟩]
      = .error "KeyError: id" :=
  rfl

/-- C3 as amended: a record with no `id` key aborts the entire update with an
uncaught `KeyError` (there is no try/except in `monitor_agents`): the
remaining records are not processed, and in the source this exception kills
the monitoring thread. -/
theorem malformed_record_raises_keyerror (excl : List Int) (th : Int)
    (avail : Int → Avail) (now : Int) (times : List (Int × Int)) (alerted : List Int)
    (rec : AgentRecord) (rest : List AgentRecord) (hid : rec.id = none) :
    monitorCycle excl th avail now times alerted (rec :: rest)
      = .error "KeyError: id" := by
  unfold monitorCycle
  rw [if_neg (by simp)]
  simp only [processAgents]
  rw [processAgent_id_none excl th avail now _ rec hid]

/-- Witness for `malformed_record_raises_keyerror`. -/
theorem malformed_record_raises_keyerror_witness :
    monitorCycle [] 600 availWatched 0 [] [] [⟨none, some "B"⟩, ⟨some 2, some "G"⟩]
      = .error "KeyError: id" :=
  malformed_record_raises_keyerror [] 600 availWatched 0 [] []
    ⟨none, some "B"⟩ [⟨some 2, some "G"⟩] rfl

/-- C4: a failed provider fetch reaches the update as the empty list, which
skips the update entirely — the status-time map and the ledger are returned
exactly unchanged and nothing is reported — and a subsequent successful
poll that still sees agent `a` watched computes its duration from the
pre-failure `started_at`. -/
theorem failed_fetch_skips_update (excl : List Int) (th : Int)
    (avail avail2 : Int → Avail) (now now2 : Int) (times : List (Int × Int))
    (alerted : List Int) (a : Int) (nm : String) (s : Int)
    (hs : lookupKV times a = some s) (hexcl : a ∉ excl)
    (hav2 : avail2 a = Avail.state (some "transfers_only")) :
    monitorCycle excl th avail now times alerted [] = .ok ⟨times, alerted, [], []⟩ ∧
    ∀ cs, monitorCycle excl th avail2 now2 times alerted [⟨some a, some nm⟩] = .ok cs →
      lookupKV cs.agent_status_times a = some s ∧
      (nm, now2 - s) ∈ cs.transfers_only_agents := by
  constructor
  · rfl
  · intro cs h
    exact monitorCycle_watched_keeps excl th avail2 now2 times alerted _ cs a nm s
      (fun rec hrec _ => List.mem_singleton.mp hrec) hexcl hav2
      (List.mem_singleton.mpr rfl) hs h

/-- Witness for `failed_fetch_skips_update`: agent 1 tracked since t = 40,
outage at t = 100, successful poll at t = 160 whose report shows duration
120 computed from the pre-failure `started_at`. -/
theorem failed_fetch_skips_update_witness :
    monitorCycle [] 600 (fun _ => Avail.empty) 100 [(1, 40)] [] []
      = .ok ⟨[(1, 40)], [], [], []⟩ ∧
    lookupKV [(1, 40)] 1 = some 40 ∧
    ("A", 160 - 40) ∈ ([("A", 120)] : List (String × Int)) :=
  ⟨(failed_fetch_skips_update [] 600 (fun _ => Avail.empty) availWatched 100 160
      [(1, 40)] [] 1 "A" 40 rfl (by decide) rfl).1,
   (failed_fetch_skips_update [] 600 (fun _ => Avail.empty) availWatched 100 160
      [(1, 40)] [] 1 "A" 40 rfl (by decide) rfl).2
     ⟨[(1, 40)], [], [("A", 120)], []⟩ rfl⟩

/-- C5: in the scenario where agent A enters the watched status at t = 0 with
threshold 600 and 60-second polls, exactly the cycle at t = 600 sends the
alert for A with duration 600, and the cycle at t = 660 sends none; and in
general, once A's episode (started at 0) is in the ledger, a poll at any
time `now` leaves the state unchanged and sends no alert — ledger
membership suppresses any further alert for the episode. -/
theorem one_alert_per_episode_scenario :
    (runTrace [] alert_threshold scenarioC5 [] []).map (List.map CycleState.alerts_sent)
      = .ok [[], [], [], [], [], [], [], [], [], [], [("A", 600)], []] ∧
    ∀ now : Int, monitorCycle [] alert_threshold availWatched now [(1, 0)] [1]
        [agentARecord]
      = .ok ⟨[(1, 0)], [1], [("A", now - 0)], []⟩ := by
  constructor
  · rfl
  · intro now
    have h1 : processAgent [] alert_threshold availWatched now
        ⟨[(1, 0)], [1], [], []⟩ agentARecord
        = .ok ⟨[(1, 0)], [1], [("A", now - 0)], []⟩ := by
      simp only [processAgent, agentARecord, availWatched]
      rw [if_neg (List.not_mem_nil 1), if_pos trivial]
      have hl : lookupKV [(1, 0)] 1 = some 0 := rfl
      rw [hl]
      dsimp only
      rw [trackWatched_no_alert_when_ledgered _ _ _ _ _ _ _ _ (List.mem_singleton.mpr rfl)]
      rfl
    unfold monitorCycle
    rw [if_neg (by decide)]
    simp only [processAgents, h1]
    rfl

/-- C6: across any unbroken run of polls in which agent `a` is observed
watched on every cycle (first cycle `c0`, then `rest`), starting from a
state with no episode for `a`, the episode's `started_at` is set to the
first poll's time `c0.now` and never changes in any later cycle of the
run, and every cycle reports `a` with duration `now - c0.now`. -/
theorem started_at_fixed_while_watched (excl : List Int) (th : Int) (a : Int)
    (nm : String) (c0 : Cycle) (rest : List Cycle) (times : List (Int × Int))
    (alerted : List Int) (trace : List CycleState)
    (hrun : runTrace excl th (c0 :: rest) times alerted = .ok trace)
    (hgood : ∀ c ∈ c0 :: rest, watchedCycleFor excl a nm c)
    (h0 : lookupKV times a = none) :
    (∀ cs ∈ trace, lookupKV cs.agent_status_times a = some c0.now) ∧
    (∀ p ∈ (c0 :: rest).zip trace,
      (nm, p.1.now - c0.now) ∈ p.2.transfers_only_agents) := by
  simp only [runTrace] at hrun
  rcases h1 : monitorCycle excl th c0.avail c0.now times alerted c0.agents with e | cs1
  · rw [h1] at hrun
    exact Except.noConfusion hrun
  · rw [h1] at hrun
    dsimp only at hrun
    rcases h2 : runTrace excl th rest cs1.agent_status_times cs1.alerted_agents
        with e | tr
    · rw [h2] at hrun
      exact Except.noConfusion hrun
    · rw [h2] at hrun
      dsimp only at hrun
      rw [← Except.ok.inj hrun]
      rcases hgood c0 (List.mem_cons_self _ _) with ⟨hexcl, hav, hmem, hall⟩
      rcases monitorCycle_watched_creates excl th c0.avail c0.now times alerted
          c0.agents cs1 a nm hall hexcl hav hmem h0 h1 with ⟨e1, e2⟩
      rcases runTrace_watched_keeps excl th a nm c0.now rest cs1.agent_status_times
          cs1.alerted_agents tr h2 (fun c hc => hgood c (List.mem_cons_of_mem _ hc)) e1
          with ⟨k1, k2⟩
      constructor
      · intro cs hcs
        rcases List.mem_cons.mp hcs with rfl | hcs'
        · exact e1
        · exact k1 cs hcs'
      · intro p hp
        rcases List.mem_cons.mp hp with rfl | hp'
        · exact e2
        · exact k2 p hp'

/-- Witness for `started_at_fixed_while_watched`: agent 1 watched at t = 5
and t = 65: the second cycle still holds `started_at = 5` and reports
duration 60. -/
theorem started_at_fixed_while_watched_witness :
    lookupKV [(1, 5)] 1 = some 5 ∧
    ("A", 65 - 5) ∈ ([("A", 60)] : List (String × Int)) :=
  ⟨(started_at_fixed_while_watched [] 600 1 "A"
      (Cycle.mk 5 availWatched [agentARecord])
      [Cycle.mk 65 availWatched [agentARecord]] [] []
      [⟨[(1, 5)], [], [("A", 0)], []⟩, ⟨[(1, 5)], [], [("A", 60)], []⟩]
      rfl (by simp only [watchedCycleFor]; decide) rfl).1
     ⟨[(1, 5)], [], [("A", 60)], []⟩
     (List.mem_cons_of_mem _ (List.mem_singleton.mpr rfl)),
   (started_at_fixed_while_watched [] 600 1 "A"
      (Cycle.mk 5 availWatched [agentARecord])
      [Cycle.mk 65 availWatched [agentARecord]] [] []
      [⟨[(1, 5)], [], [("A", 0)], []⟩, ⟨[(1, 5)], [], [("A", 60)], []⟩]
      rfl (by simp only [watchedCycleFor]; decide) rfl).2
     (Cycle.mk 65 availWatched [agentARecord], ⟨[(1, 5)], [], [("A", 60)], []⟩)
     (List.mem_cons_of_mem _ (List.mem_singleton.mpr rfl))⟩

/-- C7: agent A watched (t = 0), alerted at t = 600, in another status at
t = 650, watched again at t = 700 and still at t = 1300: the t = 650 cycle
deletes the episode and clears the ledger, the t = 700 cycle creates a
fresh independent episode with `started_at = 700`, and that second episode
alerts again at t = 1300 with duration 600 — two distinct episodes, one
alert each. -/
theorem watched_other_watched_two_episodes :
    (runTrace [] alert_threshold scenarioC7 [] []).map
      (List.map (fun cs => (cs.agent_status_times, cs.alerted_agents, cs.alerts_sent)))
      = .ok [([(1, 0)], [], []),
             ([(1, 0)], [1], [("A", 600)]),
             ([], [], []),
             ([(1, 700)], [], []),
             ([(1, 700)], [1], [("A", 600)])] :=
  rfl

/-- C8: an excluded agent is skipped by `continue` before any processing:
whatever its availability says, a cycle never creates an episode for it,
never adds it to the ledger, and never reports it in the active or alert
lists (records carrying its display name all being its own). -/
theorem excluded_agents_never_tracked (excl : List Int) (th : Int) (avail : Int → Avail)
    (now : Int) (times : List (Int × Int)) (alerted : List Int)
    (agents : List AgentRecord) (cs : CycleState) (a : Int) (nm : String)
    (hexcl : a ∈ excl)
    (hnames : ∀ rec ∈ agents, rec.name = some nm → rec.id = some a)
    (h0 : lookupKV times a = none) (h1 : a ∉ alerted)
    (h : monitorCycle excl th avail now times alerted agents = .ok cs) :
    lookupKV cs.agent_status_times a = none ∧ a ∉ cs.alerted_agents ∧
    (∀ d, (nm, d) ∉ cs.transfers_only_agents) ∧
    (∀ d, (nm, d) ∉ cs.alerts_sent) := by
  rcases monitorCycle_frame_of_excluded excl th avail now times alerted agents cs a
      hexcl h with ⟨e1, e2⟩
  rcases monitorCycle_no_entries_of_skipped excl th avail now times alerted agents cs
      a nm hnames (Or.inl hexcl) h with ⟨e3, e4⟩
  exact ⟨e1.trans h0, fun hx => h1 (e2.mp hx), e3, e4⟩

/-- Witness for `excluded_agents_never_tracked`: agent 7 ("X") excluded and
watched, agent 2 ("B") watched. -/
theorem excluded_agents_never_tracked_witness :
    lookupKV [(2, 0)] 7 = none ∧ (7 : Int) ∉ ([] : List Int) ∧
    ("X", 0) ∉ ([("B", 0)] : List (String × Int)) ∧
    ("X", 0) ∉ ([] : List (String × Int)) :=
  ⟨(excluded_agents_never_tracked [7] 600 availWatched 0 [] []
      [⟨some 7, some "X"⟩, ⟨some 2, some "B"⟩] ⟨[(2, 0)], [], [("B", 0)], []⟩ 7 "X"
      (by decide) (by decide) rfl (by decide) rfl).1,
   (excluded_agents_never_tracked [7] 600 availWatched 0 [] []
      [⟨some 7, some "X"⟩, ⟨some 2, some "B"⟩] ⟨[(2, 0)], [], [("B", 0)], []⟩ 7 "X"
      (by decide) (by decide) rfl (by decide) rfl).2.1,
   (excluded_agents_never_tracked [7] 600 availWatched 0 [] []
      [⟨some 7, some "X"⟩, ⟨some 2, some "B"⟩] ⟨[(2, 0)], [], [("B", 0)], []⟩ 7 "X"
      (by decide) (by decide) rfl (by decide) rfl).2.2.1 0,
   (excluded_agents_never_tracked [7] 600 availWatched 0 [] []
      [⟨some 7, some "X"⟩, ⟨some 2, some "B"⟩] ⟨[(2, 0)], [], [("B", 0)], []⟩ 7 "X"
      (by decide) (by decide) rfl (by decide) rfl).2.2.2 0⟩

/-- C9: when `get_agent_availability` comes back empty for agent `a` (request
error or missing data), the cycle leaves `a`'s episode and ledger
membership exactly unchanged — the episode is neither deleted nor its
duration recomputed — and `a` is omitted from the cycle's active list. -/
theorem availability_failure_frame (excl : List Int) (th : Int) (avail : Int → Avail)
    (now : Int) (times : List (Int × Int)) (alerted : List Int)
    (agents : List AgentRecord) (cs : CycleState) (a : Int) (nm : String)
    (hav : avail a = Avail.empty)
    (hnames : ∀ rec ∈ agents, rec.name = some nm → rec.id = some a)
    (h : monitorCycle excl th avail now times alerted agents = .ok cs) :
    lookupKV cs.agent_status_times a = lookupKV times a ∧
    (a ∈ cs.alerted_agents ↔ a ∈ alerted) ∧
    (∀ d, (nm, d) ∉ cs.transfers_only_agents) := by
  rcases monitorCycle_frame_of_emptyAvail excl th avail now times alerted agents cs a
      hav h with ⟨e1, e2⟩
  rcases monitorCycle_no_entries_of_skipped excl th avail now times alerted agents cs
      a nm hnames (Or.inr hav) h with ⟨e3, _⟩
  exact ⟨e1, e2, e3⟩

/-- Witness for `availability_failure_frame`: agent 1 ("A") tracked since
t = 10 and already alerted, its availability lookup fails at t = 100 while
agent 2 ("B") is processed normally. -/
theorem availability_failure_frame_witness :
    lookupKV [(1, 10), (2, 100)] 1 = lookupKV [(1, 10)] 1 ∧
    ((1 : Int) ∈ ([1] : List Int) ↔ (1 : Int) ∈ ([1] : List Int)) ∧
    ("A", 90) ∉ ([("B", 0)] : List (String × Int)) :=
  ⟨(availability_failure_frame [] 600
      (fun x => if x = 1 then Avail.empty else availWatched x) 100 [(1, 10)] [1]
      [⟨some 1, some "A"⟩, ⟨some 2, some "B"⟩]
      ⟨[(1, 10), (2, 100)], [1], [("B", 0)], []⟩ 1 "A"
      rfl (by decide) rfl).1,
   (availability_failure_frame [] 600
      (fun x => if x = 1 then Avail.empty else availWatched x) 100 [(1, 10)] [1]
      [⟨some 1, some "A"⟩, ⟨some 2, some "B"⟩]
      ⟨[(1, 10), (2, 100)], [1], [("B", 0)], []⟩ 1 "A"
      rfl (by decide) rfl).2.1,
   (availability_failure_frame [] 600
      (fun x => if x = 1 then Avail.empty else availWatched x) 100 [(1, 10)] [1]
      [⟨some 1, some "A"⟩, ⟨some 2, some "B"⟩]
      ⟨[(1, 10), (2, 100)], [1], [("B", 0)], []⟩ 1 "A"
      rfl (by decide) rfl).2.2 90⟩

/-- C10: after every successful update, every id in the alerted ledger still
has a live entry in the status-time map — ids are added to the ledger only
while their episode exists, and the only episode-removing path inside the
update also discards the ledger entry. -/
theorem ledger_subset_of_episodes (excl : List Int) (th : Int) (avail : Int → Avail)
    (now : Int) (times : List (Int × Int)) (alerted : List Int)
    (agents : List AgentRecord) (cs : CycleState)
    (hP : ∀ x ∈ alerted, (lookupKV times x).isSome = true)
    (h : monitorCycle excl th avail now times alerted agents = .ok cs) :
    ∀ x ∈ cs.alerted_agents, (lookupKV cs.agent_status_times x).isSome = true := by
  rcases monitorCycle_ok_elim excl th avail now times alerted agents cs h with
    ⟨_, rfl⟩ | ⟨cs0, h0, rfl⟩
  · exact hP
  · exact processAgents_inv excl th avail now
      (fun c => ∀ x ∈ c.alerted_agents, (lookupKV c.agent_status_times x).isSome = true)
      agents ⟨times, alerted, [], []⟩ cs0
      (fun c c' rec _ hPc h1 => processAgent_ledger_inv excl th avail now c c' rec h1 hPc)
      hP h0

/-- Witness for `ledger_subset_of_episodes`. -/
theorem ledger_subset_of_episodes_witness :
    (lookupKV [(1, 0), (2, 50)] 1).isSome = true :=
  ledger_subset_of_episodes [] 600 availWatched 50 [(1, 0)] [1]
    [⟨some 2, some "B"⟩] ⟨[(1, 0), (2, 50)], [1], [("B", 0)], []⟩ (by decide) rfl
    1 (List.mem_singleton.mpr rfl)

end SlackBot
